import Mathlib

/-!
Shallow embedding of `orca_core/orca_core/hand_controller.py`
(class `OrcaHandController`), the joint-command merge-and-dispatch pipeline
of the orca_core repository, together with theorems settling the frozen
claims about it.

Modelling conventions:
* Python `float` angle values are modelled as `ℚ`.
* Python `dict` (insertion-ordered, unique keys) is modelled as an
  association list `List (String × α)` with `dictGet` (key lookup) and
  `dictSet` (replace-in-place-or-append), matching `d[k]`/`k in d` and
  `d[k] = v`.
* `math.degrees` and `math.radians` multiply by the irrational factors
  180/π and π/180; over the rational value space they are kept as explicit
  function parameters `deg` / `rad` of every definition that calls them,
  so every theorem quantifies over the conversion functions.
* The `try/except` blocks that catch actuator errors are modelled by a
  `Bool` flag saying whether the guarded actuator call raises, with the
  handler's effect (log, skip the rest of the block) made explicit in the
  result.
-/

namespace Orca

/-- `self.joint_mapping` of `OrcaHandController.__init__`: external joint
name to canonical orca joint name (wrist excluded). -/
def joint_mapping : List (String × String) :=
  [("right_thumb_mcp", "thumb_mcp"), ("right_thumb_abd", "thumb_abd"),
   ("right_thumb_pip", "thumb_pip"), ("right_thumb_dip", "thumb_dip"),
   ("right_index_mcp", "index_mcp"), ("right_index_pip", "index_pip"),
   ("right_index_abd", "index_abd"), ("right_middle_mcp", "middle_mcp"),
   ("right_middle_pip", "middle_pip"), ("right_ring_mcp", "ring_mcp"),
   ("right_ring_pip", "ring_pip"), ("right_ring_abd", "ring_abd"),
   ("right_pinky_mcp", "pinky_mcp"), ("right_pinky_pip", "pinky_pip"),
   ("right_pinky_abd", "pinky_abd")]

/-- `self.joint_roms` of `OrcaHandController.__init__`: per-joint range of
motion limits in degrees (wrist excluded). -/
def joint_roms : List (String × (ℚ × ℚ)) :=
  [("thumb_mcp", (-50, 50)), ("thumb_abd", (-20, 42)),
   ("thumb_pip", (-12, 108)), ("thumb_dip", (-20, 112)),
   ("index_mcp", (-20, 95)), ("index_pip", (-20, 108)),
   ("index_abd", (-37, 37)), ("middle_mcp", (-20, 91)),
   ("middle_pip", (-20, 107)), ("ring_mcp", (-20, 91)),
   ("ring_pip", (-20, 107)), ("ring_abd", (-37, 37)),
   ("pinky_mcp", (-20, 98)), ("pinky_pip", (-20, 108)),
   ("pinky_abd", (-37, 37))]

/-- `self.wrist_rom` of `OrcaHandController.__init__`. -/
def wrist_rom : ℚ × ℚ := (-24, 24)

/-- Key lookup in a Python-dict-like association list: `d[k]` / `k in d`. -/
def dictGet {α : Type} : List (String × α) → String → Option α
  | [], _ => none
  | p :: ps, k => if p.1 = k then some p.2 else dictGet ps k

/-- Key update in a Python-dict-like association list: `d[k] = v` replaces
the value of an existing key in place, otherwise appends the pair. -/
def dictSet {α : Type} : List (String × α) → String → α → List (String × α)
  | [], k, v => [(k, v)]
  | p :: ps, k, v => if p.1 = k then (k, v) :: ps else p :: dictSet ps k v

/-- `OrcaHandController.clamp_joint_value`.  The body of the Python method
is exactly `return value`: it ignores `joint_name` and `self.joint_roms`
and passes the value through unchanged. -/
def clamp_joint_value (_joint_name : String) (value : ℚ) : ℚ := value

/-- `OrcaHandController.clamp_wrist_value`:
`max(min_val, min(max_val, value))` with `(min_val, max_val) = wrist_rom`. -/
def clamp_wrist_value (value : ℚ) : ℚ :=
  max wrist_rom.1 (min wrist_rom.2 value)

/-- The mutable controller state: `self.current_joint_positions` (a dict
from orca joint name to degrees) and `self.current_wrist_position`. -/
structure CtrlState where
  current_joint_positions : List (String × ℚ)
  current_wrist_position : ℚ
  deriving DecidableEq, Repr

/-- The state set up by `OrcaHandController.__init__`: empty finger-joint
dict, wrist position `0`. -/
def initState : CtrlState := ⟨[], 0⟩

/-- One iteration of the `for name, position in zip(msg.name, msg.position)`
loop body of `joint_state_callback`: skip `right_wrist`, translate the
external name through `joint_mapping`, convert to degrees with `deg`
(modelling `math.degrees`), clamp with `clamp_joint_value`, store. -/
def joint_state_entry (deg : ℚ → ℚ) (s : CtrlState) (name : String)
    (position : ℚ) : CtrlState :=
  if name = "right_wrist" then s
  else
    match dictGet joint_mapping name with
    | some orca_name =>
        let position_deg := clamp_joint_value orca_name (deg position)
        { s with current_joint_positions := dictSet s.current_joint_positions orca_name position_deg }
    | none => s

/-- A `sensor_msgs/JointState` message as used by the callback: parallel
name and position arrays. -/
structure JointStateMsg where
  name : List String
  position : List ℚ
  deriving DecidableEq, Repr

/-- `OrcaHandController.joint_state_callback`: fold the loop body over
`zip(msg.name, msg.position)`. -/
def joint_state_callback (deg : ℚ → ℚ) (s : CtrlState)
    (msg : JointStateMsg) : CtrlState :=
  (msg.name.zip msg.position).foldl
    (fun st p => joint_state_entry deg st p.1 p.2) s

/-- `OrcaHandController.wrist_angle_callback`: convert `msg.data` to
degrees with `deg` (modelling `math.degrees`), clamp with
`clamp_wrist_value`, store as the current wrist position.  (The method's
`try` body contains no fallible actuator call, so the modelled body is
total.) -/
def wrist_angle_callback (deg : ℚ → ℚ) (s : CtrlState) (data : ℚ) :
    CtrlState :=
  { s with current_wrist_position := clamp_wrist_value (deg data) }

/-- The snapshot built at the top of `send_all_joint_positions`:
`act_joint_states = self.current_joint_positions.copy()` followed by
`act_joint_states['wrist'] = self.current_wrist_position`. -/
def merged_snapshot (s : CtrlState) : List (String × ℚ) :=
  dictSet s.current_joint_positions "wrist" s.current_wrist_position

/-- Observable outcome of one dispatch tick: the snapshot handed to
`self.hand.set_joint_pos` (`attempted`), the `/orca_hand/act_joint_states`
message published afterwards, if any (`published`, names and positions in
radians), and whether the `except` branch logged an error. -/
structure TickOutcome where
  attempted : List (String × ℚ)
  published : Option (List String × List ℚ)
  loggedError : Bool
  deriving DecidableEq, Repr

/-- `OrcaHandController.send_all_joint_positions` (one timer tick):
build the snapshot, hand it to the actuator write; if the write raises
(`writeFails = true`) the exception is caught by the method's
`try/except`, which logs the error and skips the publish; otherwise the
snapshot's keys and radian-converted values (`rad` models `math.radians`)
are published.  Either way the method returns with the controller state
unmodified — nothing in the body assigns to `self`. -/
def send_all_joint_positions (rad : ℚ → ℚ) (s : CtrlState)
    (writeFails : Bool) : CtrlState × TickOutcome :=
  let act_joint_states := merged_snapshot s
  if writeFails then
    (s, ⟨act_joint_states, none, true⟩)
  else
    (s, ⟨act_joint_states,
         some (act_joint_states.map Prod.fst,
               act_joint_states.map fun p => rad p.2), false⟩)

/-- `OrcaHandController.publish_real_joint_states`: given the dict
returned by `self.hand.get_joint_pos(as_list=False)` (each joint's
reading, `none` when unavailable), return the published message, if any.
A falsy (empty) dict publishes nothing; otherwise entries whose value is
`None` are filtered out and the remaining values are converted to radians
with `rad` (modelling `math.radians`). -/
def publish_real_joint_states (rad : ℚ → ℚ)
    (real_joint_positions : List (String × Option ℚ)) :
    Option (List String × List ℚ) :=
  if real_joint_positions.isEmpty then none
  else
    let valid_joints := real_joint_positions.filterMap
      fun p => p.2.map fun v => (p.1, v)
    some (valid_joints.map Prod.fst, valid_joints.map fun p => rad p.2)

/-- Observable outcome of `OrcaHandController.__del__`: the single neutral
command handed to `self.hand.set_joint_pos`, whether a failure of that
call was reported, and whether any exception propagates out of the
finalizer. -/
structure DelOutcome where
  issued : List (String × ℚ)
  errorReported : Bool
  raisesToCaller : Bool
  deriving DecidableEq, Repr

/-- `OrcaHandController.__del__` with `hasattr(self, 'hand')` true: builds
`neutral = {jid: 0 for jid in self.hand.joint_ids}` and calls
`self.hand.set_joint_pos(neutral)` once.  `joint_ids` comes from the
`OrcaHand` actuator object and is passed in as a parameter.  Per Python's
defined finalizer semantics, an exception raised inside `__del__` is
reported by the interpreter (to stderr) and ignored — it never propagates
to the caller or blocks interpreter shutdown — hence
`raisesToCaller = false` in both branches. -/
def del_teardown (joint_ids : List String) (writeFails : Bool) :
    DelOutcome :=
  { issued := joint_ids.map fun jid => (jid, (0 : ℚ))
    errorReported := writeFails
    raisesToCaller := false }

/-- An externally observable input event to the controller node: a
finger-joint message, a wrist-angle message, or a timer tick (whose
actuator write may fail). -/
inductive Event where
  | jointsMsg : JointStateMsg → Event
  | wristMsg : ℚ → Event
  | tick : Bool → Event
  deriving DecidableEq, Repr

/-- Dispatch of one event to its handler; the tick keeps only the
resulting state. -/
def step (deg rad : ℚ → ℚ) (s : CtrlState) : Event → CtrlState
  | .jointsMsg msg => joint_state_callback deg s msg
  | .wristMsg d => wrist_angle_callback deg s d
  | .tick f => (send_all_joint_positions rad s f).1

/-- Run a sequence of events from a state. -/
def run (deg rad : ℚ → ℚ) (s : CtrlState) (evs : List Event) : CtrlState :=
  evs.foldl (step deg rad) s

/-- Whether an event is a wrist-angle message. -/
def isWristEvent : Event → Bool
  | .wristMsg _ => true
  | _ => false

/-- The canonical update, if any, that one `(name, position)` entry of a
joint-state message induces: `right_wrist` entries are skipped, unknown
names are dropped, known names are translated through `joint_mapping` and
paired with their raw position. -/
def entryUpdate (p : String × ℚ) : Option (String × ℚ) :=
  if p.1 = "right_wrist" then none
  else (dictGet joint_mapping p.1).map fun orca_name => (orca_name, p.2)

/-- The canonical-key update list induced by a list of raw
`(name, position)` entries. -/
def mappedEntries (l : List (String × ℚ)) : List (String × ℚ) :=
  l.filterMap entryUpdate

/-- The canonical-key update list induced by a joint-state message. -/
def mappedUpdates (msg : JointStateMsg) : List (String × ℚ) :=
  mappedEntries (msg.name.zip msg.position)

end Orca

/-!
## Library lemmas about the dictionary model
-/

namespace Orca

theorem dictGet_dictSet {α : Type} (d : List (String × α)) (k k' : String) (v : α) :
    dictGet (dictSet d k v) k' = if k = k' then some v else dictGet d k' := by
  induction d with
  | nil => simp [dictGet, dictSet]
  | cons p ps ih =>
    obtain ⟨a, b⟩ := p
    by_cases h1 : a = k
    · subst h1
      by_cases h2 : a = k'
      · subst h2
        simp [dictSet, dictGet]
      · simp [dictSet, dictGet, h2]
    · by_cases h2 : a = k'
      · subst h2
        have h3 : ¬ k = a := fun h => h1 h.symm
        simp [dictSet, dictGet, h1, h3]
      · simp [dictSet, dictGet, h1, h2, ih]

theorem mem_keys_dictSet {α : Type} (d : List (String × α)) (k k' : String) (v : α) :
    k' ∈ (dictSet d k v).map Prod.fst ↔ k' = k ∨ k' ∈ d.map Prod.fst := by
  induction d with
  | nil => simp [dictSet]
  | cons p ps ih =>
    obtain ⟨a, b⟩ := p
    by_cases h1 : a = k
    · subst h1
      simp [dictSet]
    · simp [dictSet, h1, ih]
      tauto

theorem dictGet_mem {α : Type} (d : List (String × α)) (k : String) (v : α)
    (h : dictGet d k = some v) : (k, v) ∈ d := by
  induction d with
  | nil => simp [dictGet] at h
  | cons p ps ih =>
    obtain ⟨a, b⟩ := p
    by_cases h1 : a = k
    · subst h1
      simp [dictGet] at h
      subst h
      exact List.mem_cons_self _ _
    · simp only [dictGet, if_neg h1] at h
      exact List.mem_cons_of_mem _ (ih h)

theorem key_unique {α : Type} (d : List (String × α))
    (hnd : (d.map Prod.fst).Nodup) (k : String) (a b : α)
    (ha : (k, a) ∈ d) (hb : (k, b) ∈ d) : a = b := by
  induction d with
  | nil => simp at ha
  | cons p ps ih =>
    simp only [List.map_cons, List.nodup_cons] at hnd
    rcases List.mem_cons.1 ha with ha1 | ha2 <;> rcases List.mem_cons.1 hb with hb1 | hb2
    · have h := ha1.trans hb1.symm
      simpa using h
    · exfalso
      apply hnd.1
      have hm : k ∈ List.map Prod.fst ps := by
        simpa using List.mem_map_of_mem Prod.fst hb2
      rw [← ha1]
      exact hm
    · exfalso
      apply hnd.1
      have hm : k ∈ List.map Prod.fst ps := by
        simpa using List.mem_map_of_mem Prod.fst ha2
      rw [← hb1]
      exact hm
    · exact ih hnd.2 ha2 hb2

/-!
## Claim theorems
-/

/-- C1: The claim says the clamping operation returns a value inside the
configured range of motion, with `index_mcp` at raw `200` yielding `95`.
The code refutes it: `joint_roms` assigns `index_mcp` the bound
`[-20, 95]`, yet `clamp_joint_value "index_mcp" 200` returns `200`, which
exceeds the upper bound `95` — the method's body `return value` never
consults `joint_roms`. -/
theorem clamp_joint_value_ignores_rom :
    dictGet joint_roms "index_mcp" = some (-20, 95) ∧
    clamp_joint_value "index_mcp" 200 = 200 ∧ ¬ ((200 : ℚ) ≤ 95) :=
  ⟨by decide, rfl, by decide⟩

/-- C2: The claim says no unclamped value is ever stored in the merged
state or forwarded to the actuator for a joint with a configured bound.
The code refutes it: after a `right_index_mcp` update whose degree value
is `200`, the merged state holds `index_mcp ↦ 200` and the next dispatch
hands `index_mcp ↦ 200` to the actuator, although `index_mcp`'s
configured bound is `[-20, 95]`. -/
theorem unclamped_value_stored_and_dispatched :
    dictGet (joint_state_callback id initState ⟨["right_index_mcp"], [200]⟩).current_joint_positions "index_mcp" = some 200 ∧
    dictGet ((send_all_joint_positions id (joint_state_callback id initState ⟨["right_index_mcp"], [200]⟩) false).2.attempted) "index_mcp" = some 200 ∧
    dictGet joint_roms "index_mcp" = some (-20, 95) ∧
    ¬ ((200 : ℚ) ≤ 95) := by
  refine ⟨by decide, by decide, by decide, by decide⟩

end Orca

/-!
## Lemmas about update mapping, folding and the event machine
-/

namespace Orca

theorem mappedEntries_cons_none {p : String × ℚ} {ps : List (String × ℚ)}
    (hu : entryUpdate p = none) :
    mappedEntries (p :: ps) = mappedEntries ps := by
  simp [mappedEntries, List.filterMap_cons, hu]

theorem mappedEntries_cons_some {p kv : String × ℚ} {ps : List (String × ℚ)}
    (hu : entryUpdate p = some kv) :
    mappedEntries (p :: ps) = kv :: mappedEntries ps := by
  simp [mappedEntries, List.filterMap_cons, hu]

theorem joint_state_entry_eq (deg : ℚ → ℚ) (s : CtrlState) (p : String × ℚ) :
    joint_state_entry deg s p.1 p.2 =
      match entryUpdate p with
      | none => s
      | some kv => { s with current_joint_positions := dictSet s.current_joint_positions kv.1 (clamp_joint_value kv.1 (deg kv.2)) } := by
  unfold joint_state_entry entryUpdate
  by_cases h : p.1 = "right_wrist"
  · simp [h]
  · simp only [if_neg h]
    cases dictGet joint_mapping p.1 <;> simp

theorem entryUpdate_key_mem {p kv : String × ℚ}
    (hu : entryUpdate p = some kv) : kv.1 ∈ joint_mapping.map Prod.snd := by
  unfold entryUpdate at hu
  by_cases h : p.1 = "right_wrist"
  · simp [h] at hu
  · simp only [if_neg h] at hu
    cases hm : dictGet joint_mapping p.1 with
    | none => rw [hm] at hu; simp at hu
    | some o =>
      rw [hm] at hu
      simp only [Option.map_some', Option.some.injEq] at hu
      have : o = kv.1 := by rw [← hu]
      rw [← this]
      exact List.mem_map_of_mem Prod.snd (dictGet_mem _ _ _ hm)

theorem mappedEntries_key_mem {l : List (String × ℚ)} {k : String} {v : ℚ}
    (h : (k, v) ∈ mappedEntries l) : k ∈ joint_mapping.map Prod.snd := by
  simp only [mappedEntries, List.mem_filterMap] at h
  obtain ⟨p, _, hu⟩ := h
  exact entryUpdate_key_mem hu

theorem mapped_key_ne_wrist {l : List (String × ℚ)} {k : String} {v : ℚ}
    (h : (k, v) ∈ mappedEntries l) : k ≠ "wrist" := by
  intro hk
  have hm := mappedEntries_key_mem h
  rw [hk] at hm
  revert hm
  decide

theorem foldEntries_get_not_mem (deg : ℚ → ℚ) (l : List (String × ℚ))
    (s : CtrlState) (k : String) (hk : k ∉ (mappedEntries l).map Prod.fst) :
    dictGet (l.foldl (fun st p => joint_state_entry deg st p.1 p.2) s).current_joint_positions k
      = dictGet s.current_joint_positions k := by
  induction l generalizing s with
  | nil => rfl
  | cons p ps ih =>
    simp only [List.foldl_cons]
    rw [joint_state_entry_eq]
    cases hu : entryUpdate p with
    | none =>
      rw [mappedEntries_cons_none hu] at hk
      exact ih _ hk
    | some kv =>
      rw [mappedEntries_cons_some hu] at hk
      simp only [List.map_cons, List.mem_cons, not_or] at hk
      rw [ih _ hk.2]
      simp only []
      rw [dictGet_dictSet]
      exact if_neg (fun h => hk.1 h.symm)

theorem foldEntries_get_mem (deg : ℚ → ℚ) (l : List (String × ℚ))
    (s : CtrlState) (hnd : ((mappedEntries l).map Prod.fst).Nodup)
    (k : String) (v : ℚ) (hkv : (k, v) ∈ mappedEntries l) :
    dictGet (l.foldl (fun st p => joint_state_entry deg st p.1 p.2) s).current_joint_positions k
      = some (clamp_joint_value k (deg v)) := by
  induction l generalizing s with
  | nil => simp [mappedEntries] at hkv
  | cons p ps ih =>
    simp only [List.foldl_cons]
    rw [joint_state_entry_eq]
    cases hu : entryUpdate p with
    | none =>
      rw [mappedEntries_cons_none hu] at hkv hnd
      exact ih _ hnd hkv
    | some kv =>
      rw [mappedEntries_cons_some hu] at hkv hnd
      simp only [List.map_cons, List.nodup_cons] at hnd
      rcases List.mem_cons.1 hkv with h1 | h2
      · subst h1
        rw [foldEntries_get_not_mem deg ps _ k hnd.1]
        simp only []
        rw [dictGet_dictSet, if_pos rfl]
      · exact ih _ hnd.2 h2

theorem joint_state_callback_eq (deg : ℚ → ℚ) (s : CtrlState) (msg : JointStateMsg) :
    joint_state_callback deg s msg
      = (msg.name.zip msg.position).foldl (fun st p => joint_state_entry deg st p.1 p.2) s := rfl

theorem dictGet_merged_snapshot_wrist (s : CtrlState) :
    dictGet (merged_snapshot s) "wrist" = some s.current_wrist_position := by
  rw [merged_snapshot, dictGet_dictSet]
  simp

theorem dictGet_merged_snapshot_ne (s : CtrlState) (k : String) (hk : k ≠ "wrist") :
    dictGet (merged_snapshot s) k = dictGet s.current_joint_positions k := by
  rw [merged_snapshot, dictGet_dictSet]
  exact if_neg (fun h => hk h.symm)

theorem run_nil (deg rad : ℚ → ℚ) (s : CtrlState) : run deg rad s [] = s := rfl

theorem run_cons (deg rad : ℚ → ℚ) (s : CtrlState) (e : Event) (evs : List Event) :
    run deg rad s (e :: evs) = run deg rad (step deg rad s e) evs := rfl

theorem joint_state_entry_wrist (deg : ℚ → ℚ) (s : CtrlState) (name : String) (position : ℚ) :
    (joint_state_entry deg s name position).current_wrist_position = s.current_wrist_position := by
  rw [joint_state_entry_eq deg s (name, position)]
  cases entryUpdate (name, position) <;> rfl

theorem foldEntries_wrist (deg : ℚ → ℚ) (l : List (String × ℚ)) (s : CtrlState) :
    (l.foldl (fun st p => joint_state_entry deg st p.1 p.2) s).current_wrist_position
      = s.current_wrist_position := by
  induction l generalizing s with
  | nil => rfl
  | cons p ps ih =>
    simp only [List.foldl_cons]
    rw [ih, joint_state_entry_wrist]

theorem joint_state_callback_wrist (deg : ℚ → ℚ) (s : CtrlState) (msg : JointStateMsg) :
    (joint_state_callback deg s msg).current_wrist_position = s.current_wrist_position := by
  rw [joint_state_callback_eq]
  exact foldEntries_wrist deg _ s

theorem tick_state_eq (rad : ℚ → ℚ) (s : CtrlState) (f : Bool) :
    (send_all_joint_positions rad s f).1 = s := by
  cases f <;> rfl

theorem step_wrist (deg rad : ℚ → ℚ) (s : CtrlState) (e : Event)
    (he : isWristEvent e = false) :
    (step deg rad s e).current_wrist_position = s.current_wrist_position := by
  cases e with
  | jointsMsg msg => exact joint_state_callback_wrist deg s msg
  | wristMsg d => simp [isWristEvent] at he
  | tick f => rw [step, tick_state_eq]

theorem run_wrist (deg rad : ℚ → ℚ) (s : CtrlState) (evs : List Event)
    (hevs : ∀ e ∈ evs, isWristEvent e = false) :
    (run deg rad s evs).current_wrist_position = s.current_wrist_position := by
  induction evs generalizing s with
  | nil => rfl
  | cons e es ih =>
    rw [run_cons]
    rw [ih _ (fun x hx => hevs x (List.mem_cons_of_mem _ hx))]
    exact step_wrist deg rad s e (hevs e (List.mem_cons_self _ _))

theorem mem_valid_filter (d : List (String × Option ℚ)) (k : String) (v : ℚ) :
    (k, v) ∈ d.filterMap (fun p => p.2.map fun w => (p.1, w)) ↔ (k, some v) ∈ d := by
  simp only [List.mem_filterMap]
  constructor
  · rintro ⟨⟨a, ob⟩, hmem, hu⟩
    simp only [Option.map_eq_some'] at hu
    obtain ⟨b, hob, hab⟩ := hu
    subst hob
    cases hab
    exact hmem
  · intro hmem
    exact ⟨(k, some v), hmem, rfl⟩

theorem foldEntries_keys (deg : ℚ → ℚ) (l : List (String × ℚ)) (s : CtrlState) (k : String)
    (h : k ∈ (l.foldl (fun st p => joint_state_entry deg st p.1 p.2) s).current_joint_positions.map Prod.fst) :
    k ∈ s.current_joint_positions.map Prod.fst ∨ k ∈ joint_mapping.map Prod.snd := by
  induction l generalizing s with
  | nil => exact Or.inl h
  | cons p ps ih =>
    simp only [List.foldl_cons] at h
    rw [joint_state_entry_eq] at h
    cases hu : entryUpdate p with
    | none =>
      rw [hu] at h
      exact ih _ h
    | some kv =>
      rw [hu] at h
      rcases ih _ h with h1 | h2
      · rcases (mem_keys_dictSet _ _ _ _).1 h1 with hk | hk
        · subst hk
          exact Or.inr (entryUpdate_key_mem hu)
        · exact Or.inl hk
      · exact Or.inr h2

theorem run_keys (deg rad : ℚ → ℚ) (s : CtrlState) (evs : List Event) (k : String)
    (h : k ∈ (run deg rad s evs).current_joint_positions.map Prod.fst) :
    k ∈ s.current_joint_positions.map Prod.fst ∨ k ∈ joint_mapping.map Prod.snd := by
  induction evs generalizing s with
  | nil => exact Or.inl h
  | cons e es ih =>
    rw [run_cons] at h
    rcases ih _ h with h1 | h2
    · cases e with
      | jointsMsg msg => exact foldEntries_keys deg _ s k h1
      | wristMsg d => exact Or.inl h1
      | tick f => cases f <;> exact Or.inl h1
    · exact Or.inr h2

end Orca

namespace Orca

/-- C3: Applying two partial updates `U1` then `U2` (starting from the
initial empty state) yields a dispatch snapshot that contains, for every
canonical key updated by `U2`, the value derived from `U2`'s entry; for
every canonical key updated only by `U1`, the value derived from `U1`'s
entry; and no finger-joint key that neither update touched.  The updates
are required not to address the same canonical key twice within one
message. -/
theorem partial_updates_overwrite_only_present_joints (deg : ℚ → ℚ)
    (U1 U2 : JointStateMsg)
    (h1 : ((mappedUpdates U1).map Prod.fst).Nodup)
    (h2 : ((mappedUpdates U2).map Prod.fst).Nodup) :
    (∀ k v, (k, v) ∈ mappedUpdates U2 →
      dictGet (merged_snapshot (joint_state_callback deg (joint_state_callback deg initState U1) U2)) k
        = some (clamp_joint_value k (deg v))) ∧
    (∀ k v, (k, v) ∈ mappedUpdates U1 → k ∉ (mappedUpdates U2).map Prod.fst →
      dictGet (merged_snapshot (joint_state_callback deg (joint_state_callback deg initState U1) U2)) k
        = some (clamp_joint_value k (deg v))) ∧
    (∀ k, k ≠ "wrist" → k ∉ (mappedUpdates U1).map Prod.fst →
      k ∉ (mappedUpdates U2).map Prod.fst →
      dictGet (merged_snapshot (joint_state_callback deg (joint_state_callback deg initState U1) U2)) k = none) := by
  refine ⟨?_, ?_, ?_⟩
  · intro k v hkv
    rw [dictGet_merged_snapshot_ne _ _ (mapped_key_ne_wrist hkv)]
    rw [joint_state_callback_eq deg _ U2]
    exact foldEntries_get_mem deg _ _ h2 k v hkv
  · intro k v hkv hknot
    rw [dictGet_merged_snapshot_ne _ _ (mapped_key_ne_wrist hkv)]
    rw [joint_state_callback_eq deg _ U2]
    rw [foldEntries_get_not_mem deg _ _ k hknot]
    rw [joint_state_callback_eq deg _ U1]
    exact foldEntries_get_mem deg _ _ h1 k v hkv
  · intro k hkw hk1 hk2
    rw [dictGet_merged_snapshot_ne _ _ hkw]
    rw [joint_state_callback_eq deg _ U2]
    rw [foldEntries_get_not_mem deg _ _ k hk2]
    rw [joint_state_callback_eq deg _ U1]
    rw [foldEntries_get_not_mem deg _ _ k hk1]
    rfl

/-- C3 witness: scenario B of the spec, with the degree conversion
instantiated to the identity — `U1 = {right_thumb_mcp: 10}` then
`U2 = {right_index_mcp: 5}` gives a snapshot with `index_mcp = 5`,
`thumb_mcp = 10` and no `middle_mcp` entry. -/
theorem partial_updates_overwrite_witness :
    dictGet (merged_snapshot (joint_state_callback id (joint_state_callback id initState ⟨["right_thumb_mcp"], [10]⟩) ⟨["right_index_mcp"], [5]⟩)) "index_mcp" = some 5 ∧
    dictGet (merged_snapshot (joint_state_callback id (joint_state_callback id initState ⟨["right_thumb_mcp"], [10]⟩) ⟨["right_index_mcp"], [5]⟩)) "thumb_mcp" = some 10 ∧
    dictGet (merged_snapshot (joint_state_callback id (joint_state_callback id initState ⟨["right_thumb_mcp"], [10]⟩) ⟨["right_index_mcp"], [5]⟩)) "middle_mcp" = none := by
  have h := partial_updates_overwrite_only_present_joints id ⟨["right_thumb_mcp"], [10]⟩ ⟨["right_index_mcp"], [5]⟩ (by decide) (by decide)
  refine ⟨?_, ?_, ?_⟩
  · have hx := h.1 "index_mcp" 5 (by decide)
    simpa [clamp_joint_value] using hx
  · have hx := h.2.1 "thumb_mcp" 10 (by decide) (by decide)
    simpa [clamp_joint_value] using hx
  · exact h.2.2 "middle_mcp" (by decide) (by decide) (by decide)

/-- C4: A wrist update whose degree value is 30 is clamped to the wrist
bound `[-24, 24]`: the stored wrist position becomes 24, and every
subsequent dispatch snapshot (after any further wrist-free events)
contains `wrist = 24`, not 30. -/
theorem wrist_update_clamped_to_wrist_rom (deg rad : ℚ → ℚ) (s : CtrlState)
    (data : ℚ) (hdata : deg data = 30) (evs : List Event)
    (hevs : ∀ e ∈ evs, isWristEvent e = false) :
    (wrist_angle_callback deg s data).current_wrist_position = 24 ∧
    dictGet (merged_snapshot (run deg rad (wrist_angle_callback deg s data) evs)) "wrist" = some 24 := by
  have h24 : (wrist_angle_callback deg s data).current_wrist_position = 24 := by
    simp only [wrist_angle_callback, hdata]
    decide
  refine ⟨h24, ?_⟩
  rw [dictGet_merged_snapshot_wrist, run_wrist deg rad _ evs hevs, h24]

/-- C4 witness: scenario D at a concrete state — a wrist update of 30°
(identity conversion) stores 24, and the snapshot after a subsequent
failing tick still reads `wrist = 24`. -/
theorem wrist_update_clamped_witness :
    ((id : ℚ → ℚ) 30 = 30) ∧
    (wrist_angle_callback id initState 30).current_wrist_position = 24 ∧
    dictGet (merged_snapshot (run id id (wrist_angle_callback id initState 30) [Event.tick true])) "wrist" = some 24 := by
  have h := wrist_update_clamped_to_wrist_rom id id initState 30 rfl [Event.tick true] (by decide)
  exact ⟨rfl, h.1, h.2⟩

/-- C5: If no wrist update has ever been applied (any event sequence with
no wrist message, starting from the initial state), the stored wrist
position is 0 and every dispatch snapshot contains `wrist = 0`; the very
first snapshot, with every finger joint absent, is exactly
`[("wrist", 0)]`. -/
theorem wrist_defaults_to_zero (deg rad : ℚ → ℚ) (evs : List Event)
    (hevs : ∀ e ∈ evs, isWristEvent e = false) :
    (run deg rad initState evs).current_wrist_position = 0 ∧
    dictGet (merged_snapshot (run deg rad initState evs)) "wrist" = some 0 ∧
    merged_snapshot initState = [("wrist", 0)] := by
  have h0 : (run deg rad initState evs).current_wrist_position = 0 :=
    run_wrist deg rad initState evs hevs
  refine ⟨h0, ?_, rfl⟩
  rw [dictGet_merged_snapshot_wrist, h0]

/-- C5 witness: after a finger update and a tick but no wrist message,
the snapshot still holds `wrist = 0`. -/
theorem wrist_defaults_witness :
    (run id id initState [Event.jointsMsg ⟨["right_thumb_mcp"], [10]⟩, Event.tick false]).current_wrist_position = 0 ∧
    dictGet (merged_snapshot (run id id initState [Event.jointsMsg ⟨["right_thumb_mcp"], [10]⟩, Event.tick false])) "wrist" = some 0 ∧
    merged_snapshot initState = [("wrist", 0)] :=
  wrist_defaults_to_zero id id [Event.jointsMsg ⟨["right_thumb_mcp"], [10]⟩, Event.tick false] (by decide)

/-- C7: An actuator-write failure on a tick is caught by the tick's
`try/except` (the error is logged, nothing is published), the controller
state is left unchanged, and after any further events the next tick
dispatches a freshly taken snapshot of the latest merged state — the
failed write is not retried — and, when its own write succeeds, publishes
normally. -/
theorem tick_failure_contained (deg rad : ℚ → ℚ) (s : CtrlState) (evs : List Event) :
    (send_all_joint_positions rad s true).2.loggedError = true ∧
    (send_all_joint_positions rad s true).2.published = none ∧
    (send_all_joint_positions rad s true).1 = s ∧
    (send_all_joint_positions rad s true).2.attempted = merged_snapshot s ∧
    (send_all_joint_positions rad (run deg rad (send_all_joint_positions rad s true).1 evs) false).2.attempted
      = merged_snapshot (run deg rad s evs) ∧
    (send_all_joint_positions rad (run deg rad (send_all_joint_positions rad s true).1 evs) false).2.loggedError = false ∧
    ((send_all_joint_positions rad (run deg rad (send_all_joint_positions rad s true).1 evs) false).2.published).isSome = true :=
  ⟨rfl, rfl, rfl, rfl, rfl, rfl, rfl⟩

/-- C8: For any non-empty actuator reading (with each joint reported at
most once), the published feedback message lists exactly the joints whose
reading is available — a joint reported as `None` is omitted, not
defaulted — and each published position is the radian conversion of the
observed value. -/
theorem feedback_omits_unavailable (rad : ℚ → ℚ)
    (real_joint_positions : List (String × Option ℚ))
    (hne : real_joint_positions ≠ [])
    (hnd : (real_joint_positions.map Prod.fst).Nodup) :
    ∃ valid : List (String × ℚ),
      publish_real_joint_states rad real_joint_positions
          = some (valid.map Prod.fst, valid.map fun p => rad p.2) ∧
      (∀ k v, ((k, v) ∈ valid ↔ (k, some v) ∈ real_joint_positions)) ∧
      (∀ k, (k, none) ∈ real_joint_positions → k ∉ valid.map Prod.fst) := by
  refine ⟨real_joint_positions.filterMap (fun p => p.2.map fun w => (p.1, w)), ?_, ?_, ?_⟩
  · have hne' : ¬ real_joint_positions.isEmpty = true := by
      simpa [List.isEmpty_iff] using hne
    simp only [publish_real_joint_states, if_neg hne']
  · intro k v
    exact mem_valid_filter _ k v
  · intro k hknone hkmem
    simp only [List.mem_map] at hkmem
    obtain ⟨⟨k1, v⟩, hv, hk1⟩ := hkmem
    have hk1' : k1 = k := hk1
    subst hk1'
    have hsome : (k1, some v) ∈ real_joint_positions := (mem_valid_filter _ k1 v).1 hv
    have hcontra := key_unique _ hnd k1 (some v) none hsome hknone
    simp at hcontra

/-- C8 witness: a reading with `thumb_mcp` available and `index_mcp`
unavailable publishes only `thumb_mcp`. -/
theorem feedback_omits_unavailable_witness :
    (([("thumb_mcp", some (10:ℚ)), ("index_mcp", none)] : List (String × Option ℚ)) ≠ []) ∧
    ∃ valid : List (String × ℚ),
      publish_real_joint_states id [("thumb_mcp", some 10), ("index_mcp", none)]
          = some (valid.map Prod.fst, valid.map fun p => id p.2) ∧
      (∀ k v, ((k, v) ∈ valid ↔ (k, some v) ∈ ([("thumb_mcp", some (10:ℚ)), ("index_mcp", none)] : List (String × Option ℚ)))) ∧
      (∀ k, (k, none) ∈ ([("thumb_mcp", some (10:ℚ)), ("index_mcp", none)] : List (String × Option ℚ)) → k ∉ valid.map Prod.fst) :=
  ⟨by decide, feedback_omits_unavailable id _ (by decide) (by decide)⟩

/-- C9: On teardown, `__del__` issues exactly one command that maps every
known joint id to neutral 0; a failure of the actuator write inside the
finalizer is reported but, per Python's finalizer semantics, never
propagates and so cannot block process exit. -/
theorem del_issues_single_neutral_command (joint_ids : List String) (writeFails : Bool) :
    (del_teardown joint_ids writeFails).issued.map Prod.fst = joint_ids ∧
    (∀ kv ∈ (del_teardown joint_ids writeFails).issued, kv.2 = 0) ∧
    (del_teardown joint_ids writeFails).errorReported = writeFails ∧
    (del_teardown joint_ids writeFails).raisesToCaller = false := by
  refine ⟨?_, ?_, rfl, rfl⟩
  · simp only [del_teardown, List.map_map]
    have : (Prod.fst ∘ fun jid : String => (jid, (0:ℚ))) = id := rfl
    rw [this, List.map_id]
  · intro kv hkv
    simp only [del_teardown, List.mem_map] at hkv
    obtain ⟨jid, _, hkv⟩ := hkv
    rw [← hkv]

/-- C10: A dispatch tick never mutates the merged command state — the
state after the tick equals the state before it — and, for any reachable
state, the `wrist` key is never inserted into `current_joint_positions`
even though every dispatched snapshot contains it. -/
theorem dispatch_does_not_mutate_state (deg rad : ℚ → ℚ) (s : CtrlState)
    (f : Bool) (evs : List Event) :
    (send_all_joint_positions rad s f).1 = s ∧
    "wrist" ∉ (run deg rad initState evs).current_joint_positions.map Prod.fst ∧
    dictGet (merged_snapshot (run deg rad initState evs)) "wrist"
      = some (run deg rad initState evs).current_wrist_position := by
  refine ⟨tick_state_eq rad s f, ?_, dictGet_merged_snapshot_wrist _⟩
  intro hmem
  rcases run_keys deg rad initState evs "wrist" hmem with h | h
  · simp [initState] at h
  · revert h
    decide

end Orca
